import Mathlib

/-!
Shallow embedding of the generation-orchestration core of the commit-msg
repository, centred on the usage-statistics ledger (`StatsManager` in the
`usage` package) and the rate limiter contract.

Modelling conventions:
* Go `int` counters are modelled as `Int` (no realistic overflow is involved
  in any claim; all updates are increments by one or additions).
* Go `float64` values are modelled as `ℚ`.  Every concrete numeric instance
  appearing in the claims (100/150/200 running means, 75.0 hit rate) is
  exactly representable and exactly computed in binary64, so the rational
  model agrees with the Go semantics on them; `ℚ` has no NaN, and the code
  guards every division, which is what the claims assert.
* the Go `map[LLMProvider]*ProviderStats` is modelled as an association list
  with insert-or-replace update; Go map iteration order is unspecified, the
  list order stands for one such enumeration order.
* `time.Now().UTC().Format(time.RFC3339)` is passed in as an explicit `now`
  string argument.
* file-system and JSON effects (`os.ReadFile`, `json.Unmarshal`,
  `os.WriteFile`) are modelled by explicit parameters describing their
  outcome, so that the control flow of `load`, `NewStatsManager` and the
  persist step of `RecordGeneration` is embedded faithfully.
-/

namespace CommitMsg

/-- Go: `type LLMProvider string` (pkg/types). -/
abbrev LLMProvider := String

/-- Go struct `types.ProviderStats`: per-provider durable aggregates. -/
structure ProviderStats where
  name : LLMProvider
  totalUses : Int
  successfulUses : Int
  failedUses : Int
  totalCost : ℚ
  totalTokensUsed : Int
  averageGenerationTime : ℚ
  firstUsed : String
  lastUsed : String
  successRate : ℚ
deriving DecidableEq

/-- Go zero value of `ProviderStats` (all counters 0, strings empty). -/
def ProviderStats.zero : ProviderStats :=
  { name := ""
    totalUses := 0
    successfulUses := 0
    failedUses := 0
    totalCost := 0
    totalTokensUsed := 0
    averageGenerationTime := 0
    firstUsed := ""
    lastUsed := ""
    successRate := 0 }

/-- Go struct `types.UsageStats`: the global durable ledger. -/
structure UsageStats where
  totalGenerations : Int
  successfulGenerations : Int
  failedGenerations : Int
  providerStats : List (LLMProvider × ProviderStats)
  firstUse : String
  lastUse : String
  totalCost : ℚ
  totalTokensUsed : Int
  cacheHits : Int
  cacheMisses : Int
  averageGenerationTime : ℚ
deriving DecidableEq

/-- Fresh zero-valued ledger, as built in `NewStatsManager`:
`&types.UsageStats{ProviderStats: make(map[...]...)}`. -/
def freshStats : UsageStats :=
  { totalGenerations := 0
    successfulGenerations := 0
    failedGenerations := 0
    providerStats := []
    firstUse := ""
    lastUse := ""
    totalCost := 0
    totalTokensUsed := 0
    cacheHits := 0
    cacheMisses := 0
    averageGenerationTime := 0 }

/-- Go struct `types.GenerationEvent` as consumed by `RecordGeneration`
(the recording code reads `event.CacheChecked` in addition to the fields
listed in pkg/types). -/
structure GenerationEvent where
  provider : LLMProvider
  success : Bool
  generationTime : ℚ
  tokensUsed : Int
  cost : ℚ
  cacheChecked : Bool
  cacheHit : Bool
  timestamp : String
  errorMessage : String
deriving DecidableEq

/-- Go map read `m[k]` returning `nil` when the key is absent. -/
def lookupProvider : List (LLMProvider × ProviderStats) → LLMProvider →
    Option ProviderStats
  | [], _ => none
  | (k, v) :: rest, key => if k = key then some v else lookupProvider rest key

/-- Go map write `m[k] = v`: replace the binding if present, else add it. -/
def insertProvider : List (LLMProvider × ProviderStats) → LLMProvider →
    ProviderStats → List (LLMProvider × ProviderStats)
  | [], key, v => [(key, v)]
  | (k, w) :: rest, key, v =>
    if k = key then (key, v) :: rest else (k, w) :: insertProvider rest key v

/-- Read-or-create of the provider entry (part_002 lines 88-95): Go reads
`sm.stats.ProviderStats[event.Provider]` after inserting a fresh entry with
`Name` and `FirstUsed` set when the map had none. -/
def providerBase (s : UsageStats) (event : GenerationEvent)
    (now : String) : ProviderStats :=
  match lookupProvider s.providerStats event.provider with
  | some p => p
  | none =>
    { ProviderStats.zero with name := event.provider, firstUsed := now }

/-- Per-provider counter update applied to the (possibly just created)
entry (part_002 lines 96-114). -/
def updateProviderStats (base : ProviderStats) (event : GenerationEvent)
    (now : String) : ProviderStats :=
  let pTotalUses : Int := base.totalUses + 1
  let pSuccessfulUses : Int :=
    if event.success then base.successfulUses + 1 else base.successfulUses
  let pFailedUses : Int :=
    if event.success then base.failedUses else base.failedUses + 1
  let pTotalCost : ℚ := base.totalCost + event.cost
  let pTotalTokensUsed : Int := base.totalTokensUsed + event.tokensUsed
  let pTotalTime : ℚ :=
    base.averageGenerationTime * ((pTotalUses - 1 : Int) : ℚ)
  let pAverageGenerationTime : ℚ :=
    (pTotalTime + event.generationTime) / ((pTotalUses : Int) : ℚ)
  let pSuccessRate : ℚ :=
    if pTotalUses > 0 then (pSuccessfulUses : ℚ) / (pTotalUses : ℚ) * 100
    else base.successRate
  { name := base.name
    totalUses := pTotalUses
    successfulUses := pSuccessfulUses
    failedUses := pFailedUses
    totalCost := pTotalCost
    totalTokensUsed := pTotalTokensUsed
    averageGenerationTime := pAverageGenerationTime
    firstUsed := base.firstUsed
    lastUsed := now
    successRate := pSuccessRate }

/-- In-memory update performed by `StatsManager.RecordGeneration`
(part_002 lines 56-114), before the `save()` call.  `now` stands for
`time.Now().UTC().Format(time.RFC3339)`. -/
def recordGeneration (s : UsageStats) (event : GenerationEvent)
    (now : String) : UsageStats :=
  let totalGenerations : Int := s.totalGenerations + 1
  let successfulGenerations : Int :=
    if event.success then s.successfulGenerations + 1
    else s.successfulGenerations
  let failedGenerations : Int :=
    if event.success then s.failedGenerations else s.failedGenerations + 1
  let totalCost : ℚ := s.totalCost + event.cost
  let totalTokensUsed : Int := s.totalTokensUsed + event.tokensUsed
  let lastUse : String := now
  let firstUse : String := if s.firstUse = "" then now else s.firstUse
  let cacheHits : Int :=
    if event.cacheChecked && event.cacheHit then s.cacheHits + 1
    else s.cacheHits
  let cacheMisses : Int :=
    if event.cacheChecked && !event.cacheHit then s.cacheMisses + 1
    else s.cacheMisses
  let totalTime : ℚ :=
    s.averageGenerationTime * ((totalGenerations - 1 : Int) : ℚ)
  let averageGenerationTime : ℚ :=
    (totalTime + event.generationTime) / ((totalGenerations : Int) : ℚ)
  let updatedProvider : ProviderStats :=
    updateProviderStats (providerBase s event now) event now
  { totalGenerations := totalGenerations
    successfulGenerations := successfulGenerations
    failedGenerations := failedGenerations
    providerStats := insertProvider s.providerStats event.provider
      updatedProvider
    firstUse := firstUse
    lastUse := lastUse
    totalCost := totalCost
    totalTokensUsed := totalTokensUsed
    cacheHits := cacheHits
    cacheMisses := cacheMisses
    averageGenerationTime := averageGenerationTime }

/-- Sequentially record a list of events (each with its `now` timestamp). -/
def recordAll (s : UsageStats) : List (GenerationEvent × String) → UsageStats
  | [] => s
  | (e, now) :: rest => recordAll (recordGeneration s e now) rest

/-- Go: `StatsManager.GetSuccessRate` (part_002 lines 178-187). -/
def GetSuccessRate (s : UsageStats) : ℚ :=
  if s.totalGenerations = 0 then 0
  else (s.successfulGenerations : ℚ) / (s.totalGenerations : ℚ) * 100

/-- Go: `StatsManager.GetCacheHitRate` (part_002 lines 190-200). -/
def GetCacheHitRate (s : UsageStats) : ℚ :=
  let totalCacheAttempts := s.cacheHits + s.cacheMisses
  if totalCacheAttempts = 0 then 0
  else (s.cacheHits : ℚ) / (totalCacheAttempts : ℚ) * 100

/-! Field-level description of one `RecordGeneration` step: each scalar field
of the resulting ledger, read off the record literal the update builds. -/

theorem recordGeneration_totalGenerations (s : UsageStats)
    (e : GenerationEvent) (now : String) :
    (recordGeneration s e now).totalGenerations = s.totalGenerations + 1 :=
  rfl

theorem recordGeneration_successfulGenerations (s : UsageStats)
    (e : GenerationEvent) (now : String) :
    (recordGeneration s e now).successfulGenerations =
      if e.success then s.successfulGenerations + 1
      else s.successfulGenerations :=
  rfl

theorem recordGeneration_failedGenerations (s : UsageStats)
    (e : GenerationEvent) (now : String) :
    (recordGeneration s e now).failedGenerations =
      if e.success then s.failedGenerations else s.failedGenerations + 1 :=
  rfl

theorem recordGeneration_cacheHits (s : UsageStats) (e : GenerationEvent)
    (now : String) :
    (recordGeneration s e now).cacheHits =
      if e.cacheChecked && e.cacheHit then s.cacheHits + 1 else s.cacheHits :=
  rfl

theorem recordGeneration_cacheMisses (s : UsageStats) (e : GenerationEvent)
    (now : String) :
    (recordGeneration s e now).cacheMisses =
      if e.cacheChecked && !e.cacheHit then s.cacheMisses + 1
      else s.cacheMisses :=
  rfl

theorem recordGeneration_firstUse_def (s : UsageStats) (e : GenerationEvent)
    (now : String) :
    (recordGeneration s e now).firstUse =
      if s.firstUse = "" then now else s.firstUse :=
  rfl

theorem recordGeneration_lastUse_def (s : UsageStats) (e : GenerationEvent)
    (now : String) :
    (recordGeneration s e now).lastUse = now :=
  rfl

/-- Running the three counters through a whole event list, from an arbitrary
start state. -/
theorem recordAll_counts (evs : List (GenerationEvent × String))
    (s : UsageStats) :
    (recordAll s evs).totalGenerations =
        s.totalGenerations + evs.length ∧
      (recordAll s evs).successfulGenerations =
        s.successfulGenerations + evs.countP (fun p => p.1.success) ∧
      (recordAll s evs).failedGenerations =
        s.failedGenerations + evs.countP (fun p => !p.1.success) := by
  induction evs generalizing s with
  | nil => simp [recordAll]
  | cons hd tl ih =>
    obtain ⟨e, now⟩ := hd
    have h := ih (recordGeneration s e now)
    simp only [recordAll, List.countP_cons, List.length_cons] at h ⊢
    rcases h with ⟨h1, h2, h3⟩
    refine ⟨?_, ?_, ?_⟩
    · rw [h1, recordGeneration_totalGenerations]; push_cast; ring
    · rw [h2, recordGeneration_successfulGenerations]
      by_cases hs : e.success <;> simp [hs]
      all_goals omega
    · rw [h3, recordGeneration_failedGenerations]
      by_cases hs : e.success <;> simp [hs]
      all_goals omega

/-! Association-list lemmas for the provider map. -/

theorem lookupProvider_mem {m : List (LLMProvider × ProviderStats)}
    {k : LLMProvider} {v : ProviderStats}
    (h : lookupProvider m k = some v) : (k, v) ∈ m := by
  induction m with
  | nil => simp [lookupProvider] at h
  | cons hd tl ih =>
    obtain ⟨k1, v1⟩ := hd
    by_cases hk : k1 = k
    · subst hk
      simp [lookupProvider] at h
      simp [h]
    · simp [lookupProvider, hk] at h
      exact List.mem_cons_of_mem _ (ih h)

theorem mem_insertProvider {m : List (LLMProvider × ProviderStats)}
    {k : LLMProvider} {v : ProviderStats} {x : LLMProvider × ProviderStats}
    (h : x ∈ insertProvider m k v) : x ∈ m ∨ x = (k, v) := by
  induction m with
  | nil => simp [insertProvider] at h; simp [h]
  | cons hd tl ih =>
    obtain ⟨k1, v1⟩ := hd
    by_cases hk : k1 = k
    · subst hk
      simp [insertProvider] at h
      rcases h with h | h
      · right; simp [h]
      · left; exact List.mem_cons_of_mem _ h
    · simp [insertProvider, hk] at h
      rcases h with h | h
      · left; simp [h]
      · rcases ih h with h2 | h2
        · left; exact List.mem_cons_of_mem _ h2
        · right; exact h2

theorem lookupProvider_insertProvider_self
    (m : List (LLMProvider × ProviderStats)) (k : LLMProvider)
    (v : ProviderStats) :
    lookupProvider (insertProvider m k v) k = some v := by
  induction m with
  | nil => simp [insertProvider, lookupProvider]
  | cons hd tl ih =>
    obtain ⟨k1, v1⟩ := hd
    by_cases hk : k1 = k
    · subst hk; simp [insertProvider, lookupProvider]
    · simp [insertProvider, lookupProvider, hk, ih]

theorem lookupProvider_insertProvider_ne
    {m : List (LLMProvider × ProviderStats)} {k k2 : LLMProvider}
    (v : ProviderStats) (h : k2 ≠ k) :
    lookupProvider (insertProvider m k v) k2 = lookupProvider m k2 := by
  have hne : ¬(k = k2) := fun hh => h hh.symm
  induction m with
  | nil => simp [insertProvider, lookupProvider, hne]
  | cons hd tl ih =>
    obtain ⟨k1, v1⟩ := hd
    by_cases hk : k1 = k
    · subst hk
      simp [insertProvider, lookupProvider, hne]
    · simp only [insertProvider, hk, if_false, lookupProvider]
      by_cases hk2 : k1 = k2 <;> simp [hk2, ih]

/-- Fields of the per-provider update, read off the record it builds. -/
theorem updateProviderStats_fields (base : ProviderStats)
    (e : GenerationEvent) (now : String) :
    (updateProviderStats base e now).totalUses = base.totalUses + 1 ∧
      (updateProviderStats base e now).successfulUses =
        (if e.success then base.successfulUses + 1
         else base.successfulUses) ∧
      (updateProviderStats base e now).failedUses =
        (if e.success then base.failedUses else base.failedUses + 1) ∧
      (updateProviderStats base e now).firstUsed = base.firstUsed ∧
      (updateProviderStats base e now).lastUsed = now :=
  ⟨rfl, rfl, rfl, rfl, rfl⟩

theorem recordGeneration_providerStats (s : UsageStats)
    (e : GenerationEvent) (now : String) :
    (recordGeneration s e now).providerStats =
      insertProvider s.providerStats e.provider
        (updateProviderStats (providerBase s e now) e now) :=
  rfl

/-! The conservation invariant of the ledger. -/

/-- Per-provider half of the invariant: successes plus failures equal
total uses. -/
def providerInvariant (p : ProviderStats) : Prop :=
  p.successfulUses + p.failedUses = p.totalUses

/-- Ledger invariant: the global counters balance and every provider entry
balances. -/
def statsInvariant (s : UsageStats) : Prop :=
  s.successfulGenerations + s.failedGenerations = s.totalGenerations ∧
  ∀ kv ∈ s.providerStats, providerInvariant kv.2

/-- C1: starting from a fresh zero-valued ledger, after any sequence of N
calls to `StatsManager.RecordGeneration` of which k have `event.Success`
true, the ledger has `TotalGenerations = N`,
`SuccessfulGenerations = k` and `FailedGenerations = N - k`. -/
theorem stats_conservation (evs : List (GenerationEvent × String)) :
    (recordAll freshStats evs).totalGenerations = evs.length ∧
      (recordAll freshStats evs).successfulGenerations =
        evs.countP (fun p => p.1.success) ∧
      (recordAll freshStats evs).failedGenerations =
        (evs.length : Int) - evs.countP (fun p => p.1.success) := by
  obtain ⟨h1, h2, h3⟩ := recordAll_counts evs freshStats
  have hsplit := List.length_eq_countP_add_countP
    (fun p : GenerationEvent × String => p.1.success) evs
  have hfun : (fun a : GenerationEvent × String => decide ¬a.1.success = true)
      = fun p : GenerationEvent × String => !p.1.success := by
    funext p
    by_cases h : p.1.success <;> simp [h]
  rw [hfun] at hsplit
  refine ⟨?_, ?_, ?_⟩
  · rw [h1]; simp [freshStats]
  · rw [h2]; simp [freshStats]
  · rw [h3]; simp only [freshStats]
    rw [hsplit]; push_cast; ring

/-- Sample event used to instantiate universally quantified theorems. -/
def demoEvent : GenerationEvent :=
  { provider := "Gemini"
    success := true
    generationTime := 100
    tokensUsed := 5
    cost := 1
    cacheChecked := true
    cacheHit := false
    timestamp := "t1"
    errorMessage := "" }

/-- C2: the fresh ledger satisfies, and every `RecordGeneration` call
preserves, the invariant that every provider entry has
`SuccessfulUses + FailedUses = TotalUses` and globally
`SuccessfulGenerations + FailedGenerations = TotalGenerations`. -/
theorem recordGeneration_invariant :
    statsInvariant freshStats ∧
      ∀ (s : UsageStats) (e : GenerationEvent) (now : String),
        statsInvariant s → statsInvariant (recordGeneration s e now) := by
  constructor
  · exact ⟨rfl, by simp [freshStats]⟩
  · intro s e now hs
    obtain ⟨hg, hp⟩ := hs
    constructor
    · rw [recordGeneration_totalGenerations,
        recordGeneration_successfulGenerations,
        recordGeneration_failedGenerations]
      by_cases he : e.success <;> simp [he] <;> omega
    · intro kv hkv
      rw [recordGeneration_providerStats] at hkv
      rcases mem_insertProvider hkv with h | h
      · exact hp kv h
      · subst h
        have hbase : providerInvariant (providerBase s e now) := by
          cases hlk : lookupProvider s.providerStats e.provider with
          | some p =>
            have heq : providerBase s e now = p := by
              simp [providerBase, hlk]
            rw [heq]
            exact hp (e.provider, p) (lookupProvider_mem hlk)
          | none =>
            have heq : providerBase s e now =
                { ProviderStats.zero with
                    name := e.provider, firstUsed := now } := by
              simp [providerBase, hlk]
            rw [heq]
            simp [providerInvariant, ProviderStats.zero]
        obtain ⟨ht, hsucc, hfail, _, _⟩ :=
          updateProviderStats_fields (providerBase s e now) e now
        show providerInvariant (updateProviderStats (providerBase s e now)
          e now)
        unfold providerInvariant at hbase ⊢
        rw [ht, hsucc, hfail]
        by_cases he : e.success <;> simp [he] <;> omega

/-- Witness for C2 at a concrete input: one recorded event on the fresh
ledger keeps the invariant. -/
theorem recordGeneration_invariant_witness :
    statsInvariant (recordGeneration freshStats demoEvent "t1") :=
  recordGeneration_invariant.2 freshStats demoEvent "t1"
    ⟨rfl, by simp [freshStats]⟩

/-- Total uses recorded for provider `k` (0 when the map has no entry). -/
def providerUses (s : UsageStats) (k : LLMProvider) : Int :=
  match lookupProvider s.providerStats k with
  | some p => p.totalUses
  | none => 0

/-- Average generation time recorded for provider `k` (0 when the map has
no entry). -/
def providerAvg (s : UsageStats) (k : LLMProvider) : ℚ :=
  match lookupProvider s.providerStats k with
  | some p => p.averageGenerationTime
  | none => 0

theorem providerBase_totalUses (s : UsageStats) (e : GenerationEvent)
    (now : String) :
    (providerBase s e now).totalUses = providerUses s e.provider := by
  cases hlk : lookupProvider s.providerStats e.provider <;>
    simp [providerBase, providerUses, hlk, ProviderStats.zero]

theorem providerBase_avg (s : UsageStats) (e : GenerationEvent)
    (now : String) :
    (providerBase s e now).averageGenerationTime =
      providerAvg s e.provider := by
  cases hlk : lookupProvider s.providerStats e.provider <;>
    simp [providerBase, providerAvg, hlk, ProviderStats.zero]

/-- Event with a given generation time, used for the concrete running-mean
scenario of the spec. -/
def timedEvent (t : ℚ) : GenerationEvent :=
  { provider := "Gemini"
    success := true
    generationTime := t
    tokensUsed := 0
    cost := 0
    cacheChecked := false
    cacheHit := false
    timestamp := ""
    errorMessage := "" }

/-- C3: `RecordGeneration` updates the average generation time, globally
and for the event's provider, by the running-mean recurrence
`newAvg = (oldAvg * (n - 1) + sample) / n` with `n` the post-increment
count; recording times 100, 200, 300 from a fresh ledger yields averages
100, 150, 200. -/
theorem recordGeneration_running_mean :
    (∀ (s : UsageStats) (e : GenerationEvent) (now : String),
      (recordGeneration s e now).averageGenerationTime =
        (s.averageGenerationTime *
            (((s.totalGenerations + 1 : Int) : ℚ) - 1) +
          e.generationTime) / ((s.totalGenerations + 1 : Int) : ℚ)) ∧
      (∀ (s : UsageStats) (e : GenerationEvent) (now : String),
        providerAvg (recordGeneration s e now) e.provider =
          (providerAvg s e.provider *
              (((providerUses s e.provider + 1 : Int) : ℚ) - 1) +
            e.generationTime) /
            ((providerUses s e.provider + 1 : Int) : ℚ)) ∧
      (recordAll freshStats [(timedEvent 100, "t1")]).averageGenerationTime
        = 100 ∧
      (recordAll freshStats
        [(timedEvent 100, "t1"), (timedEvent 200, "t2")]
        ).averageGenerationTime = 150 ∧
      (recordAll freshStats
        [(timedEvent 100, "t1"), (timedEvent 200, "t2"),
          (timedEvent 300, "t3")]).averageGenerationTime = 200 := by
  refine ⟨?_, ?_, ?_, ?_, ?_⟩
  · intro s e now
    show (s.averageGenerationTime *
          ((s.totalGenerations + 1 - 1 : Int) : ℚ) + e.generationTime) /
          ((s.totalGenerations + 1 : Int) : ℚ) = _
    push_cast
    ring_nf
  · intro s e now
    have hlk :
        lookupProvider (recordGeneration s e now).providerStats e.provider
          = some (updateProviderStats (providerBase s e now) e now) := by
      rw [recordGeneration_providerStats]
      exact lookupProvider_insertProvider_self _ _ _
    have hstep :
        (updateProviderStats (providerBase s e now) e
            now).averageGenerationTime =
          ((providerBase s e now).averageGenerationTime *
              (((providerBase s e now).totalUses + 1 - 1 : Int) : ℚ) +
            e.generationTime) /
            (((providerBase s e now).totalUses + 1 : Int) : ℚ) := rfl
    have havg : providerAvg (recordGeneration s e now) e.provider =
        (updateProviderStats (providerBase s e now) e
          now).averageGenerationTime := by
      simp [providerAvg, hlk]
    rw [havg, hstep, providerBase_avg, providerBase_totalUses]
    push_cast
    ring_nf
  · norm_num [recordAll, recordGeneration, freshStats, timedEvent]
  · norm_num [recordAll, recordGeneration, freshStats, timedEvent]
  · norm_num [recordAll, recordGeneration, freshStats, timedEvent]

/-- C4: the derived success-rate and cache-hit-rate queries are the guarded
percentages of the spec: 0 on a zero denominator, the exact ratio times 100
otherwise; 3 hits and 1 miss give exactly 75. -/
theorem rate_queries_guarded :
    (∀ s : UsageStats, s.totalGenerations = 0 → GetSuccessRate s = 0) ∧
      (∀ s : UsageStats, s.totalGenerations ≠ 0 →
        GetSuccessRate s =
          (s.successfulGenerations : ℚ) / (s.totalGenerations : ℚ) * 100) ∧
      (∀ s : UsageStats, s.cacheHits + s.cacheMisses = 0 →
        GetCacheHitRate s = 0) ∧
      (∀ s : UsageStats, s.cacheHits + s.cacheMisses ≠ 0 →
        GetCacheHitRate s =
          (s.cacheHits : ℚ) /
            ((s.cacheHits + s.cacheMisses : Int) : ℚ) * 100) ∧
      GetCacheHitRate
        { freshStats with cacheHits := 3, cacheMisses := 1 } = 75 ∧
      GetCacheHitRate freshStats = 0 := by
  refine ⟨?_, ?_, ?_, ?_, ?_, ?_⟩
  · intro s h; simp [GetSuccessRate, h]
  · intro s h; simp [GetSuccessRate, h]
  · intro s h; simp [GetCacheHitRate, h]
  · intro s h; simp [GetCacheHitRate, h]
  · norm_num [GetCacheHitRate, freshStats]
  · norm_num [GetCacheHitRate, freshStats]

/-- Witness for C4 at concrete inputs: 3 successes out of 4 give rate 75,
and the fresh ledger (0 hits, 0 misses) reports a 0 cache hit rate. -/
theorem rate_queries_guarded_witness :
    GetSuccessRate { freshStats with
      totalGenerations := 4, successfulGenerations := 3 } = 75 ∧
      GetCacheHitRate freshStats = 0 := by
  constructor
  · have h := rate_queries_guarded.2.1
      { freshStats with totalGenerations := 4, successfulGenerations := 3 }
      (by norm_num [freshStats])
    rw [h]
    norm_num [freshStats]
  · exact rate_queries_guarded.2.2.1 freshStats (by norm_num [freshStats])

/-- C5: `RecordGeneration` increments `CacheHits` exactly when the event
checked the cache and hit, increments `CacheMisses` exactly when it checked
and did not hit, and changes neither counter when the cache was not
checked. -/
theorem recordGeneration_cache_counters (s : UsageStats)
    (e : GenerationEvent) (now : String) :
    (recordGeneration s e now).cacheHits =
        s.cacheHits + (if e.cacheChecked && e.cacheHit then 1 else 0) ∧
      (recordGeneration s e now).cacheMisses =
        s.cacheMisses + (if e.cacheChecked && !e.cacheHit then 1 else 0) ∧
      (e.cacheChecked = false →
        (recordGeneration s e now).cacheHits = s.cacheHits ∧
          (recordGeneration s e now).cacheMisses = s.cacheMisses) := by
  refine ⟨?_, ?_, ?_⟩
  · rw [recordGeneration_cacheHits]
    cases hc : e.cacheChecked <;> cases hh : e.cacheHit <;> simp
  · rw [recordGeneration_cacheMisses]
    cases hc : e.cacheChecked <;> cases hh : e.cacheHit <;> simp
  · intro hc
    rw [recordGeneration_cacheHits, recordGeneration_cacheMisses]
    simp [hc]

/-- Witness for C5: recording an event that did not check the cache leaves
both cache counters of the fresh ledger unchanged. -/
theorem recordGeneration_cache_counters_witness :
    (recordGeneration freshStats (timedEvent 100) "t1").cacheHits =
        freshStats.cacheHits ∧
      (recordGeneration freshStats (timedEvent 100) "t1").cacheMisses =
        freshStats.cacheMisses :=
  (recordGeneration_cache_counters freshStats (timedEvent 100) "t1").2.2 rfl

/-- C10: `FirstUse` is only written when still empty and `FirstUsed` only
when a provider entry is first created, while `LastUse` and `LastUsed` are
overwritten on every recorded event; entries of other providers are
untouched. -/
theorem recordGeneration_first_last_use (s : UsageStats)
    (e : GenerationEvent) (now : String) :
    (s.firstUse ≠ "" →
        (recordGeneration s e now).firstUse = s.firstUse) ∧
      (s.firstUse = "" → (recordGeneration s e now).firstUse = now) ∧
      (recordGeneration s e now).lastUse = now ∧
      (∀ p : ProviderStats,
        lookupProvider s.providerStats e.provider = some p →
          lookupProvider (recordGeneration s e now).providerStats
              e.provider = some (updateProviderStats p e now) ∧
            (updateProviderStats p e now).firstUsed = p.firstUsed ∧
            (updateProviderStats p e now).lastUsed = now) ∧
      (lookupProvider s.providerStats e.provider = none →
        ∃ q : ProviderStats,
          lookupProvider (recordGeneration s e now).providerStats
              e.provider = some q ∧
            q.firstUsed = now ∧ q.lastUsed = now) ∧
      (∀ k : LLMProvider, k ≠ e.provider →
        lookupProvider (recordGeneration s e now).providerStats k =
          lookupProvider s.providerStats k) := by
  refine ⟨?_, ?_, rfl, ?_, ?_, ?_⟩
  · intro h; rw [recordGeneration_firstUse_def]; simp [h]
  · intro h; rw [recordGeneration_firstUse_def]; simp [h]
  · intro p hp
    have hbase : providerBase s e now = p := by simp [providerBase, hp]
    refine ⟨?_, rfl, rfl⟩
    rw [recordGeneration_providerStats, hbase]
    exact lookupProvider_insertProvider_self _ _ _
  · intro hnone
    have hbase : providerBase s e now =
        { ProviderStats.zero with name := e.provider, firstUsed := now } :=
      by simp [providerBase, hnone]
    refine ⟨updateProviderStats (providerBase s e now) e now, ?_, ?_, rfl⟩
    · rw [recordGeneration_providerStats]
      exact lookupProvider_insertProvider_self _ _ _
    · show (providerBase s e now).firstUsed = now
      rw [hbase]
  · intro k hk
    rw [recordGeneration_providerStats]
    exact lookupProvider_insertProvider_ne _ hk

/-- Witness for C10: with `FirstUse` already set to `"t0"`, recording an
event for an already known provider keeps both first-use stamps and
overwrites both last-use stamps. -/
theorem recordGeneration_first_last_use_witness :
    (recordGeneration { freshStats with firstUse := "t0" } demoEvent
        "t1").firstUse = "t0" ∧
      (recordGeneration { freshStats with firstUse := "t0" } demoEvent
        "t1").lastUse = "t1" :=
  ⟨(recordGeneration_first_last_use { freshStats with firstUse := "t0" }
      demoEvent "t1").1 (by simp),
    (recordGeneration_first_last_use { freshStats with firstUse := "t0" }
      demoEvent "t1").2.2.1⟩

/-! Startup load and persistence (part_002: `NewStatsManager`, `load`,
`RecordGeneration`'s trailing `save()`).  The file system and the JSON
decoder are external effects; their outcomes are passed in explicitly:
`FileContent` is what `os.ReadFile` finds at the stats path, and a
`parse` function stands for `json.Unmarshal` on the file's bytes. -/

/-- Outcome of `os.ReadFile` on the stats path. -/
inductive FileContent where
  | missing
  | present (data : String)
deriving DecidableEq

/-- Errors the load path can surface: the `os.IsNotExist` read error, or a
`json.Unmarshal` failure. -/
inductive LoadError where
  | notExist
  | parseError
deriving DecidableEq

/-- `StatsManager.load` (part_002 lines 215-226): propagate a read error,
treat an empty file as "keep the current in-memory stats", otherwise
unmarshal. -/
def load (parse : String → Option UsageStats) (current : UsageStats) :
    FileContent → Except LoadError UsageStats
  | FileContent.missing => Except.error LoadError.notExist
  | FileContent.present data =>
    if data.length = 0 then Except.ok current
    else
      match parse data with
      | some s => Except.ok s
      | none => Except.error LoadError.parseError

/-- `NewStatsManager` (part_002 lines 23-49): build a fresh manager, run
`load`, forgive only the not-exist error. -/
def newStatsManager (parse : String → Option UsageStats)
    (file : FileContent) : Except LoadError UsageStats :=
  match load parse freshStats file with
  | Except.ok s => Except.ok s
  | Except.error e =>
    if e = LoadError.notExist then Except.ok freshStats
    else Except.error e

/-- C6: loading at startup from a missing or zero-length stats file
succeeds with the zero-valued ledger, while a non-empty file that fails to
parse makes `NewStatsManager` return an error. -/
theorem newStatsManager_load_semantics :
    (∀ parse : String → Option UsageStats,
      newStatsManager parse FileContent.missing = Except.ok freshStats) ∧
      (∀ parse : String → Option UsageStats,
        newStatsManager parse (FileContent.present "") =
          Except.ok freshStats) ∧
      (∀ (parse : String → Option UsageStats) (data : String),
        parse data = none → data.length ≠ 0 →
          newStatsManager parse (FileContent.present data) =
            Except.error LoadError.parseError) := by
  refine ⟨fun parse => rfl, fun parse => rfl, ?_⟩
  intro parse data hparse hlen
  simp [newStatsManager, load, hparse, hlen]

/-- Witness for C6: a parser that rejects everything makes startup fail on
the one-byte file "x". -/
theorem newStatsManager_load_semantics_witness :
    newStatsManager (fun _ => none) (FileContent.present "x") =
      Except.error LoadError.parseError :=
  newStatsManager_load_semantics.2.2 (fun _ => none) "x" rfl (by decide)

/-- `StatsManager.RecordGeneration` including its trailing `sm.save()`
(part_002 lines 52-118 and 229-241): the in-memory update always happens,
then the updated ledger is persisted and the persist outcome is the call's
return value.  `save` stands for the combined `os.MkdirAll` /
`json.MarshalIndent` / `os.WriteFile` outcome; `none` is success and
`some err` a write error. -/
def recordGenerationPersist (save : UsageStats → Option String)
    (s : UsageStats) (event : GenerationEvent) (now : String) :
    UsageStats × Option String :=
  let s1 := recordGeneration s event now
  (s1, save s1)

/-- C7: when the persist step fails, `RecordGeneration` returns that error
but keeps every in-memory update, so subsequent reads observe the updated
aggregates. -/
theorem recordGeneration_persist_failure
    (save : UsageStats → Option String) (s : UsageStats)
    (e : GenerationEvent) (now : String) (err : String)
    (h : save (recordGeneration s e now) = some err) :
    (recordGenerationPersist save s e now).2 = some err ∧
      (recordGenerationPersist save s e now).1 =
        recordGeneration s e now ∧
      (recordGenerationPersist save s e now).1.totalGenerations =
        s.totalGenerations + 1 ∧
      (recordGenerationPersist save s e now).1.lastUse = now ∧
      lookupProvider
          (recordGenerationPersist save s e now).1.providerStats
          e.provider =
        some (updateProviderStats (providerBase s e now) e now) := by
  refine ⟨?_, rfl, rfl, rfl, ?_⟩
  · show save (recordGeneration s e now) = some err
    exact h
  · show lookupProvider (recordGeneration s e now).providerStats
      e.provider = _
    rw [recordGeneration_providerStats]
    exact lookupProvider_insertProvider_self _ _ _

/-- Witness for C7: a save that always fails with "disk full" returns the
error while the recorded event stays counted. -/
theorem recordGeneration_persist_failure_witness :
    (recordGenerationPersist (fun _ => some "disk full") freshStats
        demoEvent "t1").2 = some "disk full" ∧
      (recordGenerationPersist (fun _ => some "disk full") freshStats
        demoEvent "t1").1.totalGenerations = 1 :=
  ⟨(recordGeneration_persist_failure (fun _ => some "disk full")
      freshStats demoEvent "t1" "disk full" rfl).1,
    (recordGeneration_persist_failure (fun _ => some "disk full")
      freshStats demoEvent "t1" "disk full" rfl).2.2.1⟩

/-! Provider ranking (`GetProviderRanking`, part_002 lines 244-276): the
source collects `(provider, uses)` pairs from the map and runs a
hand-rolled exchange sort (outer index i, inner index j > i, swap when the
later count is larger).  `selectPass` is the inner loop with the current
slot value carried through the swaps; `exchangeSort` is the outer loop. -/

/-- Inner loop of the exchange sort: scan the tail, swapping the carried
slot value with any strictly larger element; returns the final slot value
and the tail as left behind by the swaps. -/
def selectPass (x : LLMProvider × Int) :
    List (LLMProvider × Int) →
      (LLMProvider × Int) × List (LLMProvider × Int)
  | [] => (x, [])
  | y :: ys =>
    if y.2 > x.2 then
      let r := selectPass y ys
      (r.1, x :: r.2)
    else
      let r := selectPass x ys
      (r.1, y :: r.2)

theorem selectPass_length (x : LLMProvider × Int)
    (l : List (LLMProvider × Int)) :
    (selectPass x l).2.length = l.length := by
  induction l generalizing x with
  | nil => rfl
  | cons y ys ih =>
    by_cases h : y.2 > x.2 <;> simp [selectPass, h, ih]

/-- Outer loop of the exchange sort of `GetProviderRanking`. -/
def exchangeSort : List (LLMProvider × Int) → List (LLMProvider × Int)
  | [] => []
  | x :: xs =>
    (selectPass x xs).1 :: exchangeSort (selectPass x xs).2
termination_by l => l.length
decreasing_by simp [selectPass_length]

theorem selectPass_perm (x : LLMProvider × Int)
    (l : List (LLMProvider × Int)) :
    ((selectPass x l).1 :: (selectPass x l).2).Perm (x :: l) := by
  induction l generalizing x with
  | nil => simp [selectPass]
  | cons y ys ih =>
    by_cases h : y.2 > x.2
    · simp only [selectPass, h, if_true]
      exact (List.Perm.swap x _ _).trans ((ih y).cons x)
    · simp only [selectPass, h, if_false]
      exact ((List.Perm.swap y _ _).trans ((ih x).cons y)).trans
        (List.Perm.swap x y ys)

theorem selectPass_le_head (x : LLMProvider × Int)
    (l : List (LLMProvider × Int)) : x.2 ≤ (selectPass x l).1.2 := by
  induction l generalizing x with
  | nil => exact le_refl _
  | cons y ys ih =>
    by_cases h : y.2 > x.2
    · simp only [selectPass, h, if_true]
      exact le_of_lt (lt_of_lt_of_le h (ih y))
    · simp only [selectPass, h, if_false]
      exact ih x

theorem selectPass_max (x : LLMProvider × Int)
    (l : List (LLMProvider × Int)) :
    ∀ z ∈ (selectPass x l).2, z.2 ≤ (selectPass x l).1.2 := by
  induction l generalizing x with
  | nil => simp [selectPass]
  | cons y ys ih =>
    by_cases h : y.2 > x.2
    · simp only [selectPass, h, if_true]
      intro z hz
      rcases List.mem_cons.mp hz with hz | hz
      · subst hz
        exact le_of_lt (lt_of_lt_of_le h (selectPass_le_head y ys))
      · exact ih y z hz
    · simp only [selectPass, h, if_false]
      intro z hz
      rcases List.mem_cons.mp hz with hz | hz
      · subst hz
        exact le_trans (not_lt.mp h) (selectPass_le_head x ys)
      · exact ih x z hz

theorem exchangeSort_perm_aux :
    ∀ (n : Nat) (l : List (LLMProvider × Int)), l.length ≤ n →
      (exchangeSort l).Perm l := by
  intro n
  induction n with
  | zero =>
    intro l hl
    rw [List.length_eq_zero.mp (Nat.le_zero.mp hl)]
    simp [exchangeSort]
  | succ n ih =>
    intro l hl
    cases l with
    | nil => simp [exchangeSort]
    | cons x xs =>
      rw [exchangeSort]
      have hr : (selectPass x xs).2.length ≤ n := by
        rw [selectPass_length]
        exact Nat.lt_succ_iff.mp (lt_of_lt_of_le (Nat.lt_succ_self _) hl)
      exact ((ih _ hr).cons _).trans (selectPass_perm x xs)

theorem exchangeSort_perm (l : List (LLMProvider × Int)) :
    (exchangeSort l).Perm l :=
  exchangeSort_perm_aux l.length l (le_refl _)

theorem exchangeSort_sorted_aux :
    ∀ (n : Nat) (l : List (LLMProvider × Int)), l.length ≤ n →
      (exchangeSort l).Pairwise
        (fun a b : LLMProvider × Int => b.2 ≤ a.2) := by
  intro n
  induction n with
  | zero =>
    intro l hl
    rw [List.length_eq_zero.mp (Nat.le_zero.mp hl)]
    simp [exchangeSort]
  | succ n ih =>
    intro l hl
    cases l with
    | nil => simp [exchangeSort]
    | cons x xs =>
      rw [exchangeSort]
      have hr : (selectPass x xs).2.length ≤ n := by
        rw [selectPass_length]
        exact Nat.lt_succ_iff.mp (lt_of_lt_of_le (Nat.lt_succ_self _) hl)
      refine List.Pairwise.cons ?_ (ih _ hr)
      intro z hz
      exact selectPass_max x xs z ((exchangeSort_perm _).mem_iff.mp hz)

/-- Pairs fed to the sort: the Go loop over the provider map collecting
`(provider, stats.TotalUses)`. -/
def rankEntries (s : UsageStats) : List (LLMProvider × Int) :=
  s.providerStats.map (fun p => (p.1, p.2.totalUses))

/-- Go: `StatsManager.GetProviderRanking` (part_002 lines 244-276). -/
def GetProviderRanking (s : UsageStats) : List LLMProvider :=
  (exchangeSort (rankEntries s)).map Prod.fst

theorem lookupProvider_of_mem_nodup
    {m : List (LLMProvider × ProviderStats)} {k : LLMProvider}
    {v : ProviderStats} (hnd : (m.map Prod.fst).Nodup)
    (h : (k, v) ∈ m) : lookupProvider m k = some v := by
  induction m with
  | nil => simp at h
  | cons hd tl ih =>
    obtain ⟨k1, v1⟩ := hd
    simp only [List.map_cons, List.nodup_cons] at hnd
    rcases List.mem_cons.mp h with h1 | h1
    · injection h1 with hk hv
      subst hk; subst hv
      simp [lookupProvider]
    · have hk1 : ¬(k1 = k) := by
        intro hk
        subst hk
        exact hnd.1 (List.mem_map.mpr ⟨(k1, v), h1, rfl⟩)
      show (if k1 = k then some v1 else lookupProvider tl k) = some v
      rw [if_neg hk1]
      exact ih hnd.2 h1

/-- C8: for every ledger state (with the provider keys distinct, as Go map
keys necessarily are), `GetProviderRanking` returns a permutation of the
provider keys, ordered by non-increasing `TotalUses`. -/
theorem getProviderRanking_spec (s : UsageStats)
    (hnd : (s.providerStats.map Prod.fst).Nodup) :
    (GetProviderRanking s).Perm (s.providerStats.map Prod.fst) ∧
      (GetProviderRanking s).Pairwise
        (fun a b => providerUses s b ≤ providerUses s a) := by
  have hmem : ∀ a ∈ exchangeSort (rankEntries s),
      providerUses s a.1 = a.2 := by
    intro a ha
    have ha2 : a ∈ rankEntries s := (exchangeSort_perm _).mem_iff.mp ha
    obtain ⟨kv, hkv, rfl⟩ := List.mem_map.mp ha2
    have hlk : lookupProvider s.providerStats kv.1 = some kv.2 :=
      lookupProvider_of_mem_nodup hnd (by simpa using hkv)
    simp [providerUses, hlk]
  constructor
  · have hperm := (exchangeSort_perm (rankEntries s)).map Prod.fst
    have hmapeq : (rankEntries s).map Prod.fst =
        s.providerStats.map Prod.fst := by
      simp [rankEntries, List.map_map]
    rw [GetProviderRanking]
    exact hmapeq ▸ hperm
  · rw [GetProviderRanking, List.pairwise_map]
    refine (exchangeSort_sorted_aux (rankEntries s).length _
      (le_refl _)).imp_of_mem ?_
    intro a b ha hb hr
    rw [hmem a ha, hmem b hb]
    exact hr

/-- Ledger with two providers, for instantiating the ranking theorem. -/
def demoRankedStats : UsageStats :=
  { freshStats with
    providerStats :=
      [("OpenAI",
        { ProviderStats.zero with name := "OpenAI", totalUses := 1 }),
       ("Gemini",
        { ProviderStats.zero with name := "Gemini", totalUses := 3 })] }

/-- Witness for C8 on a two-provider ledger. -/
theorem getProviderRanking_spec_witness :
    (GetProviderRanking demoRankedStats).Perm
        (demoRankedStats.providerStats.map Prod.fst) ∧
      (GetProviderRanking demoRankedStats).Pairwise
        (fun a b => providerUses demoRankedStats b ≤
          providerUses demoRankedStats a) :=
  getProviderRanking_spec demoRankedStats (by
    simp [demoRankedStats, freshStats])

/-! Rate limiter.  The repository ships only the stress test
(`TestGenerateMessageRateLimiter`); the `generateMessage` orchestrator and
its semaphore are not among the available source files, so the limiter is
modelled from the spec (§4.3): a bounded counter of in-flight acquisitions
with scoped acquire/release, over preemptible concurrent tasks.  Each of
the N concurrent generation calls is a task that is pending, active
(holding a slot) or done; an interleaved execution is a sequence of
acquire/release steps chosen by an arbitrary scheduler. -/

/-- Modelled from the spec: the lifecycle of one generation call against
the rate limiter (§4.3): waiting to acquire, holding a slot, finished
after releasing. -/
inductive TaskState where
  | pending
  | active
  | done
deriving DecidableEq

/-- Number of concurrently-active holders. -/
def activeCount (ts : List TaskState) : Nat :=
  ts.countP (fun t => t = TaskState.active)

/-- Number of tasks still waiting to acquire. -/
def pendingCount (ts : List TaskState) : Nat :=
  ts.countP (fun t => t = TaskState.pending)

/-- Modelled from the spec: one scheduler-chosen transition of the
rate-limited system with ceiling `c` — a pending task acquires when fewer
than `c` holders are active, or an active holder releases (§4.3: every
holder releases exactly once). -/
inductive LimiterStep (c : Nat) :
    List TaskState → List TaskState → Prop where
  | acquire (ts : List TaskState) (i : Nat) (hi : i < ts.length)
      (hp : ts.get ⟨i, hi⟩ = TaskState.pending)
      (hc : activeCount ts < c) :
      LimiterStep c ts (ts.set i TaskState.active)
  | release (ts : List TaskState) (i : Nat) (hi : i < ts.length)
      (ha : ts.get ⟨i, hi⟩ = TaskState.active) :
      LimiterStep c ts (ts.set i TaskState.done)

/-- States an interleaving can reach from a start state. -/
inductive LimiterReachable (c : Nat) (init : List TaskState) :
    List TaskState → Prop where
  | refl : LimiterReachable c init init
  | step {ts ts2 : List TaskState} : LimiterReachable c init ts →
      LimiterStep c ts ts2 → LimiterReachable c init ts2

/-- Termination measure of the limiter system: each step strictly
decreases it, so every interleaving is finite. -/
def limiterMeasure (ts : List TaskState) : Nat :=
  2 * pendingCount ts + activeCount ts

theorem countP_set (p : TaskState → Bool) :
    ∀ (ts : List TaskState) (i : Nat) (hi : i < ts.length)
      (v : TaskState),
      (ts.set i v).countP p +
          (if p (ts.get ⟨i, hi⟩) then 1 else 0) =
        ts.countP p + (if p v then 1 else 0) := by
  intro ts
  induction ts with
  | nil =>
    intro i hi
    simp at hi
  | cons x xs ih =>
    intro i hi v
    cases i with
    | zero =>
      by_cases hx : p x <;> by_cases hv : p v <;>
        simp [List.countP_cons, hx, hv]
    | succ n =>
      have hn : n < xs.length := by simpa using hi
      have h := ih n hn v
      simp only [List.set, List.countP_cons, List.get]
      omega

/-- C9: with a fixed ceiling c > 0 and N tasks that all start pending, no
reachable interleaving ever has more than c concurrently-active holders;
the only states from which no acquire or release step exists are the ones
where all N tasks are done (no permanent deadlock as long as every holder
releases); and every step strictly decreases a natural-number measure, so
every interleaving terminates — together: all N acquisitions eventually
complete. -/
theorem rate_limiter_bound_and_progress (c N : Nat) (hc : 0 < c) :
    (∀ ts, LimiterReachable c (List.replicate N TaskState.pending) ts →
      activeCount ts ≤ c) ∧
      (∀ ts, LimiterReachable c (List.replicate N TaskState.pending) ts →
        (∀ ts2, ¬LimiterStep c ts ts2) →
        ∀ x ∈ ts, x = TaskState.done) ∧
      (∀ ts ts2, LimiterStep c ts ts2 →
        limiterMeasure ts2 < limiterMeasure ts) := by
  have hstepcount : ∀ ts ts2, LimiterStep c ts ts2 →
      (activeCount ts2 ≤ activeCount ts + 1 ∧
        limiterMeasure ts2 < limiterMeasure ts ∧
        (activeCount ts2 ≤ activeCount ts ∨ activeCount ts < c)) := by
    intro ts ts2 hstep
    cases hstep with
    | acquire i hi hp hcap =>
      have hhit := countP_set (fun t => t = TaskState.active) ts i hi
        TaskState.active
      have hpend := countP_set (fun t => t = TaskState.pending) ts i hi
        TaskState.active
      rw [hp] at hhit hpend
      simp only [activeCount, pendingCount, limiterMeasure] at *
      simp at hhit hpend
      omega
    | release i hi ha =>
      have hhit := countP_set (fun t => t = TaskState.active) ts i hi
        TaskState.done
      have hpend := countP_set (fun t => t = TaskState.pending) ts i hi
        TaskState.done
      rw [ha] at hhit hpend
      simp only [activeCount, pendingCount, limiterMeasure] at *
      simp at hhit hpend
      omega
  have hsafety : ∀ ts,
      LimiterReachable c (List.replicate N TaskState.pending) ts →
      activeCount ts ≤ c := by
    intro ts hreach
    induction hreach with
    | refl =>
      have : activeCount (List.replicate N TaskState.pending) = 0 := by
        simp only [activeCount]
        refine List.countP_eq_zero.mpr ?_
        intro a ha
        rw [(List.mem_replicate.mp ha).2]
        simp
      omega
    | step hr hstep ih =>
      obtain ⟨h1, _, h3⟩ := hstepcount _ _ hstep
      omega
  refine ⟨hsafety, ?_, fun ts ts2 h => (hstepcount ts ts2 h).2.1⟩
  intro ts hreach hstuck x hx
  by_contra hne
  have hnoactive : ∀ y ∈ ts, y ≠ TaskState.active := by
    intro y hy hyact
    subst hyact
    obtain ⟨n, hn⟩ := List.get_of_mem hy
    exact hstuck _ (LimiterStep.release ts n.1 n.2 (by simpa using hn))
  cases hxs : x with
  | done => exact hne hxs
  | active => exact hnoactive x hx hxs
  | pending =>
    have hzero : activeCount ts = 0 := by
      simp only [activeCount]
      refine List.countP_eq_zero.mpr ?_
      intro a ha
      have := hnoactive a ha
      simpa using this
    obtain ⟨n, hn⟩ := List.get_of_mem hx
    subst hxs
    exact hstuck _ (LimiterStep.acquire ts n.1 n.2 (by simpa using hn)
      (by omega))

/-- Witness for C9 at the spec's concrete scenario: ceiling 5 and 20
concurrent acquisitions. -/
theorem rate_limiter_bound_and_progress_witness :
    (∀ ts, LimiterReachable 5 (List.replicate 20 TaskState.pending) ts →
      activeCount ts ≤ 5) ∧
      (∀ ts,
        LimiterReachable 5 (List.replicate 20 TaskState.pending) ts →
        (∀ ts2, ¬LimiterStep 5 ts ts2) →
        ∀ x ∈ ts, x = TaskState.done) ∧
      (∀ ts ts2, LimiterStep 5 ts ts2 →
        limiterMeasure ts2 < limiterMeasure ts) :=
  rate_limiter_bound_and_progress 5 20 (by decide)

end CommitMsg
